import Mathlib

/-!
Verification of the tinky-web terminal stream adapters.

Shallow embedding of `TerminalWritableStream` and `TerminalReadableStream`
from `src/components/Canvas.tsx`.  Strings are modelled as `List Char`;
calls to the underlying xterm.js terminal's `write` primitive are collected
in order as a `List (List Char)` trace; optional JS callbacks are modelled
by a `Bool` flag (provided or not) together with a `Bool` output recording
whether the callback was invoked.  Methods that in the source return `this`
return the (possibly updated) stream state.
-/

set_option autoImplicit false

namespace TinkyWeb

/-- The part of the xterm.js `Terminal` the adapters read: its size. -/
structure Terminal where
  cols : Nat
  rows : Nat
deriving DecidableEq, Repr

/-- The mutable fields of `TerminalWritableStream`:
`isTTY = true`, cached `columns`/`rows`, `writable = true`. -/
structure TerminalWritableStream where
  isTTY : Bool
  columns : Nat
  rows : Nat
  writable : Bool
deriving DecidableEq, Repr

/-- The notifications `TerminalWritableStream` can publish through its
`EventEmitter` base: only `resize`, which carries no payload. -/
inductive WSEvent where
  | resize
deriving DecidableEq, Repr

namespace TerminalWritableStream

/-- The constructor: `isTTY = true`, `writable = true`, and `columns`/`rows`
initialized from the terminal's current size (`term.cols`, `term.rows`). -/
def mk0 (term : Terminal) : TerminalWritableStream :=
  { isTTY := true, columns := term.cols, rows := term.rows, writable := true }

/-- The line-ending normalization performed by `write`:
`str.replace(/(?<!\r)\n/g, "\r\n")`.  The global regex scans the input left
to right; at each line-feed the negative lookbehind inspects the character
of the original input immediately before it, so we carry that predecessor
(`prev`, `none` at the start of the string) through the scan. -/
def normalize (prev : Option Char) : List Char → List Char
  | [] => []
  | c :: cs =>
      (if c = '\n' ∧ prev ≠ some '\r' then ['\r', '\n'] else [c])
        ++ normalize (some c) cs

/-- `write(str, _encoding?, cb?)`: normalizes line endings, forwards the
result to `term.write`, invokes the callback if provided, returns `true`.
The encoding argument is ignored by the source, so it is not modelled.
Output: (state, trace of `term.write` calls, callback invoked?, return). -/
def write (s : TerminalWritableStream) (str : List Char) (cb : Bool) :
    TerminalWritableStream × List (List Char) × Bool × Bool :=
  (s, [normalize none str], cb, true)

/-- `end(chunk?, callback?)`: `if (chunk) this.write(chunk, undefined,
callback); return this;`.  JS truthiness: the guard is false both when
`chunk` is absent and when it is the empty string.  (`end` is a Lean
keyword, hence the name `endStream`.)
Output: (returned stream = `this`, trace, callback invoked?). -/
def endStream (s : TerminalWritableStream) (chunk : Option (List Char))
    (cb : Bool) : TerminalWritableStream × List (List Char) × Bool :=
  match chunk with
  | some c =>
      if c = [] then (s, [], false)
      else
        match write s c cb with
        | (s', tr, cbInv, _ret) => (s', tr, cbInv)
  | none => (s, [], false)

/-- `getWindowSize()`: returns `[this.columns, this.rows]`. -/
def getWindowSize (s : TerminalWritableStream) :
    TerminalWritableStream × (Nat × Nat) :=
  (s, (s.columns, s.rows))

/-- `clearLine(dir, callback?)`: writes `\x1b[1K` when `dir === -1`,
`\x1b[0K` when `dir === 1`, `\x1b[2K` otherwise; invokes the callback if
provided; returns `true`. -/
def clearLine (s : TerminalWritableStream) (dir : Int) (cb : Bool) :
    TerminalWritableStream × List (List Char) × Bool × Bool :=
  (s,
   [if dir = -1 then "\x1b[1K".data
    else if dir = 1 then "\x1b[0K".data
    else "\x1b[2K".data],
   cb, true)

/-- `clearScreenDown(callback?)`: writes `\x1b[J`, invokes the callback if
provided, returns `true`. -/
def clearScreenDown (s : TerminalWritableStream) (cb : Bool) :
    TerminalWritableStream × List (List Char) × Bool × Bool :=
  (s, ["\x1b[J".data], cb, true)

/-- The second positional argument of `cursorTo`: a number, a function
(the caller's completion callback in the `y` slot), or absent. -/
inductive CursorY where
  | num (n : Int)
  | func
  | absent
deriving DecidableEq, Repr

/-- `cursorTo(x, y?, callback?)`: if `typeof y === "function"` the function
becomes the callback and `y` becomes `undefined`; then if `y !== undefined`
it writes `\x1b[` y+1 `;` x+1 `H`, otherwise `\x1b[` x+1 `G`; invokes the
callback if present; returns `true`. -/
def cursorTo (s : TerminalWritableStream) (x : Int) (y : CursorY)
    (cb : Bool) : TerminalWritableStream × List (List Char) × Bool × Bool :=
  let yc : CursorY × Bool :=
    match y with
    | CursorY.func => (CursorY.absent, true)
    | v => (v, cb)
  match yc with
  | (CursorY.num n, cb2) =>
      (s, ["\x1b[".data ++ (toString (n + 1)).data ++ ";".data
             ++ (toString (x + 1)).data ++ "H".data], cb2, true)
  | (_, cb2) =>
      (s, ["\x1b[".data ++ (toString (x + 1)).data ++ "G".data], cb2, true)

/-- `moveCursor(dx, dy, callback?)`: writes `\x1b[` dx `C` if `dx > 0`,
`\x1b[` -dx `D` if `dx < 0`, then `\x1b[` dy `B` if `dy > 0`, `\x1b[` -dy
`A` if `dy < 0`; invokes the callback if provided; returns `true`. -/
def moveCursor (s : TerminalWritableStream) (dx dy : Int) (cb : Bool) :
    TerminalWritableStream × List (List Char) × Bool × Bool :=
  (s,
   (if dx > 0 then ["\x1b[".data ++ (toString dx).data ++ "C".data] else [])
     ++ (if dx < 0 then ["\x1b[".data ++ (toString (-dx)).data ++ "D".data]
         else [])
     ++ (if dy > 0 then ["\x1b[".data ++ (toString dy).data ++ "B".data]
         else [])
     ++ (if dy < 0 then ["\x1b[".data ++ (toString (-dy)).data ++ "A".data]
         else []),
   cb, true)

/-- `updateDimensions()`: overwrites the cached `columns`/`rows` with the
terminal's current size, then emits a `resize` event with no payload. -/
def updateDimensions (term : Terminal) (s : TerminalWritableStream) :
    TerminalWritableStream × List WSEvent :=
  ({ s with columns := term.cols, rows := term.rows }, [WSEvent.resize])

end TerminalWritableStream

/-- The notifications `TerminalReadableStream` emits for terminal input:
a `data` event carrying one chunk. -/
inductive RSEvent where
  | data (chunk : List Char)
deriving DecidableEq, Repr

namespace TerminalReadableStream

/-- The handler the constructor registers on the terminal's `onData` event:
`(data) => { this.emit("data", data); }` — one `data` event per chunk,
carrying the chunk itself. -/
def onDataHandler (chunk : List Char) : List RSEvent :=
  [RSEvent.data chunk]

/-- The events emitted over a finite sequence of `onData` deliveries: the
handler runs once per chunk, in arrival order. -/
def deliverAll (chunks : List (List Char)) : List RSEvent :=
  chunks.flatMap onDataHandler

end TerminalReadableStream

section Claims

open TerminalWritableStream TerminalReadableStream

/-- The predecessor-paired formulation of the C1 claim: each character of
the input is paired with the character immediately before it (`none` for
the first); a line-feed whose predecessor is not a carriage-return becomes
a carriage-return + line-feed pair, every other character is kept
unchanged. -/
def claimNormalize (s : List Char) : List Char :=
  (s.zip (none :: s.map some)).flatMap
    (fun p => if p.1 = '\n' ∧ p.2 ≠ some '\r' then ['\r', '\n'] else [p.1])

/-- The C8 claim's expansion: every line-feed becomes a carriage-return +
line-feed pair, every other character is kept. -/
def crlfExpand (s : List Char) : List Char :=
  s.flatMap (fun c => if c = '\n' then ['\r', '\n'] else [c])

theorem normalize_eq_claimNormalize_aux (s : List Char) :
    ∀ prev : Option Char,
      normalize prev s
        = (s.zip (prev :: s.map some)).flatMap
            (fun p =>
              if p.1 = '\n' ∧ p.2 ≠ some '\r' then ['\r', '\n'] else [p.1]) := by
  induction s with
  | nil => intro prev; rfl
  | cons c cs ih =>
      intro prev
      show (if c = '\n' ∧ prev ≠ some '\r' then ['\r', '\n'] else [c])
            ++ normalize (some c) cs = _
      rw [ih (some c)]
      simp only [List.map_cons, List.zip_cons_cons, List.flatMap_cons]

/-- C1: `write` forwards to `term.write` exactly the input with every
line-feed not immediately preceded by a carriage-return replaced by a
carriage-return + line-feed pair, all other characters unchanged; writing
`"a\nb\r\nc\n"` forwards `"a\r\nb\r\nc\r\n"`, and writing the empty string
forwards the empty string. -/
theorem write_normalizes_line_endings :
    (∀ (s : TerminalWritableStream) (str : List Char) (cb : Bool),
        write s str cb = (s, [claimNormalize str], cb, true))
      ∧ (∀ (s : TerminalWritableStream) (cb : Bool),
          (write s "a\nb\r\nc\n".data cb).2.1 = ["a\r\nb\r\nc\r\n".data])
      ∧ (∀ (s : TerminalWritableStream) (cb : Bool),
          (write s [] cb).2.1 = [([] : List Char)]) := by
  refine ⟨fun s str cb => ?_, fun s cb => ?_, fun s cb => ?_⟩
  · simp only [write, claimNormalize, normalize_eq_claimNormalize_aux]
  · simp only [write]
    decide
  · rfl

/-- C2: over any finite sequence of chunks delivered through the terminal's
`onData` event, the readable stream emits exactly one `data` event per
chunk, synchronously, carrying exactly that chunk, in arrival order. -/
theorem deliverAll_one_event_per_chunk :
    ∀ chunks : List (List Char),
      deliverAll chunks = chunks.map RSEvent.data
        ∧ (deliverAll chunks).length = chunks.length := by
  intro chunks
  constructor
  · induction chunks with
    | nil => rfl
    | cons c cs ih =>
        simp only [deliverAll, List.flatMap_cons, onDataHandler,
          List.map_cons, List.singleton_append, List.cons.injEq, true_and]
        exact ih
  · induction chunks with
    | nil => rfl
    | cons c cs ih =>
        simp only [deliverAll, List.flatMap_cons, onDataHandler,
          List.singleton_append, List.length_cons] at *
        omega

/-- C3: `cursorTo(x)` with `y` omitted — also when the second positional
argument is a function, detected by type and treated as the completion
callback with `y` omitted — forwards exactly ESC `[` x+1 `G` and returns
`true`; `cursorTo(x, y)` with numeric `y` forwards exactly ESC `[` y+1 `;`
x+1 `H` and returns `true`; `cursorTo(5, 3)` forwards `"\x1b[4;6H"`. -/
theorem cursorTo_escape_sequences :
    (∀ (s : TerminalWritableStream) (x : Int) (cb : Bool),
        cursorTo s x CursorY.absent cb
          = (s, ['\x1b' :: '[' :: ((toString (x + 1)).data ++ ['G'])],
             cb, true))
      ∧ (∀ (s : TerminalWritableStream) (x : Int) (cb : Bool),
          cursorTo s x CursorY.func cb
            = (s, ['\x1b' :: '[' :: ((toString (x + 1)).data ++ ['G'])],
               true, true))
      ∧ (∀ (s : TerminalWritableStream) (x y : Int) (cb : Bool),
          cursorTo s x (CursorY.num y) cb
            = (s, ['\x1b' :: '[' :: ((toString (y + 1)).data
                    ++ ';' :: ((toString (x + 1)).data ++ ['H']))],
               cb, true))
      ∧ (∀ (s : TerminalWritableStream) (cb : Bool),
          (cursorTo s 5 (CursorY.num 3) cb).2.1 = ["\x1b[4;6H".data]) :=
  ⟨fun _ _ _ => rfl, fun _ _ _ => rfl,
   fun s x y cb => by
    have base : cursorTo s x (CursorY.num y) cb
        = (s, ["\x1b[".data ++ (toString (y + 1)).data ++ ";".data
                ++ (toString (x + 1)).data ++ "H".data], cb, true) := rfl
    rw [base]
    have h0 : "\x1b[".data = ['\x1b', '['] := rfl
    have h1 : ";".data = [';'] := rfl
    have h2 : "H".data = ['H'] := rfl
    rw [h0, h1, h2]
    simp [List.append_assoc],
   fun _ _ => rfl⟩

/-- C4: `moveCursor(dx, dy)` forwards first the horizontal sequence
(ESC `[` dx `C` if `dx > 0`, ESC `[` |dx| `D` if `dx < 0`, nothing if
`dx = 0`), then the vertical sequence (ESC `[` dy `B` if `dy > 0`,
ESC `[` |dy| `A` if `dy < 0`, nothing if `dy = 0`), and returns `true`;
`moveCursor(3, 2)` forwards `"\x1b[3C"` then `"\x1b[2B"`;
`moveCursor(0, 0)` forwards nothing. -/
theorem moveCursor_sequences :
    (∀ (s : TerminalWritableStream) (dx dy : Int) (cb : Bool),
        moveCursor s dx dy cb
          = (s,
             (if dx > 0 then ['\x1b' :: '[' :: ((toString dx).data ++ ['C'])]
              else if dx < 0 then
                ['\x1b' :: '[' :: ((toString (-dx)).data ++ ['D'])]
              else [])
               ++ (if dy > 0 then
                     ['\x1b' :: '[' :: ((toString dy).data ++ ['B'])]
                   else if dy < 0 then
                     ['\x1b' :: '[' :: ((toString (-dy)).data ++ ['A'])]
                   else []),
             cb, true))
      ∧ (∀ (s : TerminalWritableStream) (cb : Bool),
          (moveCursor s 3 2 cb).2.1 = ["\x1b[3C".data, "\x1b[2B".data])
      ∧ (∀ (s : TerminalWritableStream) (cb : Bool),
          (moveCursor s 0 0 cb).2.1 = []) := by
  refine ⟨fun s dx dy cb => ?_, fun s cb => rfl, fun s cb => rfl⟩
  simp only [moveCursor, Prod.mk.injEq, true_and, and_true]
  rcases lt_trichotomy dx 0 with hx | hx | hx <;>
    rcases lt_trichotomy dy 0 with hy | hy | hy <;>
      simp [hx, hy, not_lt_of_gt, lt_irrefl]

/-- C5: `clearLine(direction)` forwards exactly one escape sequence and
returns `true`: `\x1b[1K` for `-1`, `\x1b[0K` for `1`, and `\x1b[2K` for
every other value. -/
theorem clearLine_sequences :
    (∀ (s : TerminalWritableStream) (cb : Bool),
        clearLine s (-1) cb = (s, ["\x1b[1K".data], cb, true))
      ∧ (∀ (s : TerminalWritableStream) (cb : Bool),
          clearLine s 1 cb = (s, ["\x1b[0K".data], cb, true))
      ∧ (∀ (s : TerminalWritableStream) (dir : Int) (cb : Bool),
          dir ≠ -1 → dir ≠ 1 →
            clearLine s dir cb = (s, ["\x1b[2K".data], cb, true))
      ∧ (∀ (s : TerminalWritableStream) (dir : Int) (cb : Bool),
          (clearLine s dir cb).2.1.length = 1) := by
  refine ⟨fun s cb => rfl, fun s cb => rfl,
    fun s dir cb h1 h2 => ?_, fun s dir cb => ?_⟩
  · simp only [clearLine, if_neg h1, if_neg h2]
  · simp only [clearLine, List.length_singleton]

/-- Witness for `clearLine_sequences`: at `direction = 0` the hypotheses of
the third conjunct hold and the entire line is erased. -/
theorem clearLine_sequences_witness :
    ((0 : Int) ≠ -1) ∧ ((0 : Int) ≠ 1)
      ∧ clearLine (TerminalWritableStream.mk0 ⟨80, 24⟩) 0 true
          = (TerminalWritableStream.mk0 ⟨80, 24⟩, ["\x1b[2K".data],
             true, true) :=
  ⟨by decide, by decide,
    clearLine_sequences.2.2.1 (TerminalWritableStream.mk0 ⟨80, 24⟩) 0 true
      (by decide) (by decide)⟩

/-- C6: at construction `columns`/`rows` equal the terminal's size, and
each `updateDimensions()` call overwrites them with the terminal's current
size and publishes exactly one `resize` notification with no payload,
paired with the already-updated state. -/
theorem dimensions_sync :
    (∀ t : Terminal,
        (TerminalWritableStream.mk0 t).columns = t.cols
          ∧ (TerminalWritableStream.mk0 t).rows = t.rows)
      ∧ (∀ (t : Terminal) (s : TerminalWritableStream),
          (updateDimensions t s).1.columns = t.cols
            ∧ (updateDimensions t s).1.rows = t.rows
            ∧ (updateDimensions t s).2 = [WSEvent.resize]
            ∧ (updateDimensions t s).2.length = 1) :=
  ⟨fun _ => ⟨rfl, rfl⟩, fun _ _ => ⟨rfl, rfl, rfl, rfl⟩⟩

/-- C7: `updateDimensions` is the only mutator — `write`, `end`,
`getWindowSize`, `clearLine`, `clearScreenDown`, `cursorTo` and
`moveCursor` leave the whole adapter state (`columns`, `rows`, `isTTY`,
`writable`) unchanged for all arguments. -/
theorem only_updateDimensions_mutates :
    (∀ (s : TerminalWritableStream) (str : List Char) (cb : Bool),
        (write s str cb).1 = s)
      ∧ (∀ (s : TerminalWritableStream) (chunk : Option (List Char))
            (cb : Bool), (endStream s chunk cb).1 = s)
      ∧ (∀ s : TerminalWritableStream, (getWindowSize s).1 = s)
      ∧ (∀ (s : TerminalWritableStream) (dir : Int) (cb : Bool),
          (clearLine s dir cb).1 = s)
      ∧ (∀ (s : TerminalWritableStream) (cb : Bool),
          (clearScreenDown s cb).1 = s)
      ∧ (∀ (s : TerminalWritableStream) (x : Int) (y : CursorY)
            (cb : Bool), (cursorTo s x y cb).1 = s)
      ∧ (∀ (s : TerminalWritableStream) (dx dy : Int) (cb : Bool),
          (moveCursor s dx dy cb).1 = s) := by
  refine ⟨fun s str cb => rfl, fun s chunk cb => ?_, fun s => rfl,
    fun s dir cb => rfl, fun s cb => rfl, fun s x y cb => ?_,
    fun s dx dy cb => rfl⟩
  · cases chunk with
    | none => rfl
    | some c =>
        simp only [endStream]
        split <;> rfl
  · cases y <;> rfl

theorem normalize_no_cr (s : List Char) :
    ∀ prev : Option Char, '\r' ∉ s → prev ≠ some '\r' →
      normalize prev s = crlfExpand s := by
  induction s with
  | nil => intro prev _ _; rfl
  | cons c cs ih =>
      intro prev hmem hprev
      have hc : c ≠ '\r' := fun h => hmem (h ▸ List.mem_cons_self c cs)
      have hcs : '\r' ∉ cs := fun h => hmem (List.mem_cons_of_mem c h)
      show (if c = '\n' ∧ prev ≠ some '\r' then ['\r', '\n'] else [c])
            ++ normalize (some c) cs = crlfExpand (c :: cs)
      rw [ih (some c) hcs (fun h => hc (Option.some.inj h))]
      by_cases hcn : c = '\n'
      · simp [crlfExpand, List.flatMap_cons, hcn, hprev]
      · simp [crlfExpand, List.flatMap_cons, hcn]

theorem normalize_fixes_crlfExpand (s : List Char) :
    ∀ prev : Option Char, '\r' ∉ s →
      normalize prev (crlfExpand s) = crlfExpand s := by
  induction s with
  | nil => intro prev _; rfl
  | cons c cs ih =>
      intro prev hmem
      have hc : c ≠ '\r' := fun h => hmem (h ▸ List.mem_cons_self c cs)
      have hcs : '\r' ∉ cs := fun h => hmem (List.mem_cons_of_mem c h)
      by_cases hcn : c = '\n'
      · subst hcn
        have he : crlfExpand ('\n' :: cs) = '\r' :: '\n' :: crlfExpand cs := rfl
        rw [he]
        show '\r' :: '\n' :: normalize (some '\n') (crlfExpand cs)
              = '\r' :: '\n' :: crlfExpand cs
        rw [ih (some '\n') hcs]
      · have he : crlfExpand (c :: cs) = c :: crlfExpand cs := by
          simp [crlfExpand, List.flatMap_cons, hcn]
        rw [he]
        show (if c = '\n' ∧ prev ≠ some '\r' then ['\r', '\n'] else [c])
              ++ normalize (some c) (crlfExpand cs) = c :: crlfExpand cs
        rw [if_neg (fun h => hcn h.1), ih (some c) hcs]
        rfl

/-- C8: on inputs without carriage-returns, the normalization applied by
`write` replaces every line-feed with a carriage-return + line-feed pair,
and it is idempotent on its own output. -/
theorem normalize_expands_and_idempotent :
    ∀ s : List Char, '\r' ∉ s →
      normalize none s = crlfExpand s
        ∧ normalize none (normalize none s) = normalize none s := by
  intro s hs
  have h1 : normalize none s = crlfExpand s :=
    normalize_no_cr s none hs (by decide)
  refine ⟨h1, ?_⟩
  rw [h1]
  exact normalize_fixes_crlfExpand s none hs

/-- Witness for `normalize_expands_and_idempotent` at `"ab\ncd\n"`. -/
theorem normalize_expands_and_idempotent_witness :
    ('\r' ∉ "ab\ncd\n".data)
      ∧ (normalize none "ab\ncd\n".data = crlfExpand "ab\ncd\n".data
          ∧ normalize none (normalize none "ab\ncd\n".data)
              = normalize none "ab\ncd\n".data) :=
  ⟨by decide, normalize_expands_and_idempotent "ab\ncd\n".data (by decide)⟩

/-- Counterexample to C9 as stated: with `finalText` provided but equal to
the empty string and a callback supplied, `end` does not delegate to
`write` — it forwards nothing to the terminal and never invokes the
callback — whereas `write` with the same arguments would forward the
(normalized) empty string and invoke the callback. -/
theorem endStream_empty_chunk_counterexample :
    (endStream (TerminalWritableStream.mk0 ⟨80, 24⟩) (some []) true).2
        = ([], false)
      ∧ (write (TerminalWritableStream.mk0 ⟨80, 24⟩) [] true).2
          = ([[]], true, true) :=
  ⟨rfl, rfl⟩

/-- C9 (amended): whenever a non-empty `finalText` is provided, `end`
delegates to `write` — the normalized text is forwarded and the callback
invoked exactly when provided; when `finalText` is absent or the empty
string the call forwards nothing and invokes no callback; in all cases the
returned stream is the adapter itself, unchanged (so still writable). -/
theorem endStream_spec :
    (∀ (s : TerminalWritableStream) (c : List Char) (cb : Bool), c ≠ [] →
        endStream s (some c) cb = (s, [normalize none c], cb))
      ∧ (∀ (s : TerminalWritableStream) (cb : Bool),
          endStream s none cb = (s, [], false))
      ∧ (∀ (s : TerminalWritableStream) (cb : Bool),
          endStream s (some []) cb = (s, [], false)) := by
  refine ⟨fun s c cb hc => ?_, fun s cb => rfl, fun s cb => rfl⟩
  simp only [endStream, write, if_neg hc]

/-- Witness for `endStream_spec` at the non-empty chunk `"x"`. -/
theorem endStream_spec_witness :
    (['x'] ≠ ([] : List Char))
      ∧ endStream (TerminalWritableStream.mk0 ⟨80, 24⟩) (some ['x']) true
          = (TerminalWritableStream.mk0 ⟨80, 24⟩, [normalize none ['x']],
             true) :=
  ⟨by decide,
    endStream_spec.1 (TerminalWritableStream.mk0 ⟨80, 24⟩) ['x'] true
      (by decide)⟩

theorem normalize_append_cr (s : List Char) :
    ∀ prev : Option Char,
      normalize prev (s ++ ['\r']) = normalize prev s ++ ['\r'] := by
  induction s with
  | nil =>
      intro prev
      show (if '\r' = '\n' ∧ prev ≠ some '\r' then ['\r', '\n'] else ['\r'])
            ++ normalize (some '\r') [] = [] ++ ['\r']
      rw [if_neg (fun h => absurd h.1 (by decide))]
      rfl
  | cons c cs ih =>
      intro prev
      show (if c = '\n' ∧ prev ≠ some '\r' then ['\r', '\n'] else [c])
            ++ normalize (some c) (cs ++ ['\r'])
          = ((if c = '\n' ∧ prev ≠ some '\r' then ['\r', '\n'] else [c])
              ++ normalize (some c) cs) ++ ['\r']
      rw [ih (some c), List.append_assoc]

/-- C10: an input ending in a lone carriage-return (no following
line-feed) has that trailing carriage-return passed through `write`
unmodified — not removed, not doubled, and with no line-feed appended. -/
theorem write_preserves_trailing_cr :
    ∀ (st : TerminalWritableStream) (s : List Char) (cb : Bool),
      (write st (s ++ ['\r']) cb).2.1 = [normalize none s ++ ['\r']] := by
  intro st s cb
  show [normalize none (s ++ ['\r'])] = [normalize none s ++ ['\r']]
  rw [normalize_append_cr s none]

end Claims

end TinkyWeb
